import Mathlib

/-!
Verification development for the rpcchannel library.

The definitions below are shallow embeddings of the TypeScript sources:
`src/addrmap.ts` (AddressMap), `src/accesscontrol.ts` (access controllers),
`src/serializer.ts` (rpcSerialize) and `src/registry.ts` (RpcHandlerRegistry,
RpcChannel).  JavaScript objects used as string-keyed tables are represented
by their set of occupied key paths; JavaScript truthiness of stored values is
made explicit through a `truthy` parameter; in-place mutation of the address
array and of the wildcard-capture sink is represented by returning their final
states alongside the result.
-/

namespace Rpcchannel

/-- Keys of one level of the AddressMap table: either a literal string
property or the reserved wildcard symbol key (`WildcardEntryKey`). -/
inductive Key where
  | str : String → Key
  | wc : Key
deriving DecidableEq, Repr

/-- The `AddressMapFlat` table of `src/addrmap.ts`, represented by the set of
key paths at which a child object exists (`node`) together with the partial
assignment of default entries (`defaultAt`, the `DefaultEntryKey` slots).
The root object always exists, so `node []` is never consulted. -/
structure AddressMap (T : Type) where
  node : List Key → Bool
  defaultAt : List Key → Option T

/-- A freshly constructed `new AddressMap()`: empty table. -/
def AddressMap.empty {T : Type} : AddressMap T :=
  { node := fun _ => false, defaultAt := fun _ => none }

/-- JavaScript truthiness of a `T | undefined` value: `undefined` is falsy,
a present value is as truthy as the `truthy` parameter says. -/
def optTruthy {T : Type} (truthy : T → Bool) : Option T → Bool
  | none => false
  | some v => truthy v

/-- The function `getFromAddrMapFlat` of `src/addrmap.ts`.

The first `Nat` argument is recursion fuel (the recursion depth is bounded
by the length of the address, see `getFromAddrMapFlat_length_le`); the
`List Key` argument is the path of the current table node (`map` in the
source); the result is the returned value together with the final state of
the (mutated) address array and of the optional `wc_values` sink.

Source correspondence, line by line:
`const part = addr.shift()` and `if (!part)` — the `[]` case (shift on an
empty array gives `undefined`, falsy) and the `part = ""` test (the empty
string is falsy), both returning `map[DefaultEntryKey]`; in the empty-string
case the early return skips the final `addr.unshift(part)`, so the shifted
segment is not restored.
`if (map[part])` — the literal child is consulted when it exists.
`if (!data && map[WildcardEntryKey])` — the wildcard child is consulted when
the literal result is `undefined` or falsy, after `wc_values.push(part)`.
`addr.unshift(part)` — the segment is put back in front of whatever the
recursive calls left of the address array. -/
def getFromAddrMapFlat {T : Type} (truthy : T → Bool) (m : AddressMap T) :
    Nat → List Key → List String → Option (List String) →
    Option T × List String × Option (List String)
  | _, path, [], wcv => (m.defaultAt path, [], wcv)
  | fuel, path, part :: rest, wcv =>
    if part = "" then (m.defaultAt path, rest, wcv)
    else
      match fuel with
      | 0 => (none, part :: rest, wcv)
      | fuel + 1 =>
        let r1 :=
          if m.node (path ++ [Key.str part]) then
            getFromAddrMapFlat truthy m fuel (path ++ [Key.str part]) rest wcv
          else (none, rest, wcv)
        if optTruthy truthy r1.1 then
          (r1.1, part :: r1.2.1, r1.2.2)
        else if m.node (path ++ [Key.wc]) then
          let r2 := getFromAddrMapFlat truthy m fuel (path ++ [Key.wc])
            r1.2.1 (r1.2.2.map (fun l => l ++ [part]))
          (r2.1, part :: r2.2.1, r2.2.2)
        else (r1.1, part :: r1.2.1, r1.2.2)

/-- The method `AddressMap.get` of `src/addrmap.ts`:
`getFromAddrMapFlat(this.table, addr, wc_values) || this.table[DefaultEntryKey]`.
The fuel `addr.length` is sufficient because every recursive call strictly
shortens the address (see `getFromAddrMapFlat_length_le`). -/
def AddressMap.get {T : Type} (m : AddressMap T) (truthy : T → Bool)
    (addr : List String) (wcv : Option (List String)) :
    Option T × List String × Option (List String) :=
  let r := getFromAddrMapFlat truthy m addr.length [] addr wcv
  (if optTruthy truthy r.1 then r.1 else m.defaultAt [], r.2.1, r.2.2)

/-- The key chosen by `put` for one address segment:
`const key = part || WildcardEntryKey` — a `undefined`/`null` segment and
also the (falsy) empty string select the wildcard key. -/
def keyOfPart : Option String → Key
  | none => Key.wc
  | some s => if s = "" then Key.wc else Key.str s

/-- The key path selected by a wildcard address pattern. -/
def keyPath (addr : List (Option String)) : List Key :=
  addr.map keyOfPart

/-- The key path of a concrete (all-literal) address. -/
def strPath (addr : List String) : List Key :=
  addr.map Key.str

/-- Boolean test that `p` is a prefix of `q` (used to describe the table
nodes created by the `put` walk). -/
def keyPrefixB : List Key → List Key → Bool
  | [], _ => true
  | _ :: _, [] => false
  | a :: as, b :: bs => decide (a = b) && keyPrefixB as bs

/-- The method `AddressMap.put` of `src/addrmap.ts`: the `forEach` walk
creates a table node at every nonempty prefix of the key path, and the final
node has its `DefaultEntryKey` deleted (`isUndef(value)`) or assigned. -/
def AddressMap.put {T : Type} (m : AddressMap T) (addr : List (Option String))
    (value : Option T) : AddressMap T :=
  { node := fun q => m.node q || (decide (q ≠ []) && keyPrefixB q (keyPath addr)),
    defaultAt := fun q => if q = keyPath addr then value else m.defaultAt q }

/-! Unfolding lemmas for `getFromAddrMapFlat`. -/

theorem getFlat_nil {T : Type} (truthy : T → Bool) (m : AddressMap T)
    (fuel : Nat) (path : List Key) (wcv : Option (List String)) :
    getFromAddrMapFlat truthy m fuel path [] wcv = (m.defaultAt path, [], wcv) := by
  cases fuel <;> rfl

theorem getFlat_emptyseg {T : Type} (truthy : T → Bool) (m : AddressMap T)
    (fuel : Nat) (path : List Key) (rest : List String)
    (wcv : Option (List String)) :
    getFromAddrMapFlat truthy m fuel path ("" :: rest) wcv
      = (m.defaultAt path, rest, wcv) := by
  cases fuel <;> simp [getFromAddrMapFlat]

theorem getFlat_zero {T : Type} (truthy : T → Bool) (m : AddressMap T)
    (path : List Key) (part : String) (rest : List String)
    (wcv : Option (List String)) (h : part ≠ "") :
    getFromAddrMapFlat truthy m 0 path (part :: rest) wcv
      = (none, part :: rest, wcv) := by
  simp [getFromAddrMapFlat, h]

theorem getFlat_cons_lit_truthy {T : Type} (truthy : T → Bool) (m : AddressMap T)
    (fuel : Nat) (path : List Key) (part : String) (rest : List String)
    (wcv : Option (List String)) (hp : part ≠ "")
    (hn : m.node (path ++ [Key.str part]) = true)
    (ht : optTruthy truthy
      (getFromAddrMapFlat truthy m fuel (path ++ [Key.str part]) rest wcv).1 = true) :
    getFromAddrMapFlat truthy m (fuel + 1) path (part :: rest) wcv
      = ((getFromAddrMapFlat truthy m fuel (path ++ [Key.str part]) rest wcv).1,
         part :: (getFromAddrMapFlat truthy m fuel (path ++ [Key.str part]) rest wcv).2.1,
         (getFromAddrMapFlat truthy m fuel (path ++ [Key.str part]) rest wcv).2.2) := by
  simp [getFromAddrMapFlat, hp, hn, ht]

theorem getFlat_cons_lit_falsy_wc {T : Type} (truthy : T → Bool) (m : AddressMap T)
    (fuel : Nat) (path : List Key) (part : String) (rest : List String)
    (wcv : Option (List String)) (hp : part ≠ "")
    (hn : m.node (path ++ [Key.str part]) = true)
    (ht : optTruthy truthy
      (getFromAddrMapFlat truthy m fuel (path ++ [Key.str part]) rest wcv).1 = false)
    (hw : m.node (path ++ [Key.wc]) = true) :
    getFromAddrMapFlat truthy m (fuel + 1) path (part :: rest) wcv
      = ((getFromAddrMapFlat truthy m fuel (path ++ [Key.wc])
            (getFromAddrMapFlat truthy m fuel (path ++ [Key.str part]) rest wcv).2.1
            ((getFromAddrMapFlat truthy m fuel (path ++ [Key.str part]) rest wcv).2.2.map
              (fun l => l ++ [part]))).1,
         part :: (getFromAddrMapFlat truthy m fuel (path ++ [Key.wc])
            (getFromAddrMapFlat truthy m fuel (path ++ [Key.str part]) rest wcv).2.1
            ((getFromAddrMapFlat truthy m fuel (path ++ [Key.str part]) rest wcv).2.2.map
              (fun l => l ++ [part]))).2.1,
         (getFromAddrMapFlat truthy m fuel (path ++ [Key.wc])
            (getFromAddrMapFlat truthy m fuel (path ++ [Key.str part]) rest wcv).2.1
            ((getFromAddrMapFlat truthy m fuel (path ++ [Key.str part]) rest wcv).2.2.map
              (fun l => l ++ [part]))).2.2) := by
  simp [getFromAddrMapFlat, hp, hn, ht, hw]

theorem getFlat_cons_lit_falsy_nowc {T : Type} (truthy : T → Bool) (m : AddressMap T)
    (fuel : Nat) (path : List Key) (part : String) (rest : List String)
    (wcv : Option (List String)) (hp : part ≠ "")
    (hn : m.node (path ++ [Key.str part]) = true)
    (ht : optTruthy truthy
      (getFromAddrMapFlat truthy m fuel (path ++ [Key.str part]) rest wcv).1 = false)
    (hw : m.node (path ++ [Key.wc]) = false) :
    getFromAddrMapFlat truthy m (fuel + 1) path (part :: rest) wcv
      = ((getFromAddrMapFlat truthy m fuel (path ++ [Key.str part]) rest wcv).1,
         part :: (getFromAddrMapFlat truthy m fuel (path ++ [Key.str part]) rest wcv).2.1,
         (getFromAddrMapFlat truthy m fuel (path ++ [Key.str part]) rest wcv).2.2) := by
  simp [getFromAddrMapFlat, hp, hn, ht, hw]

theorem getFlat_cons_nolit_wc {T : Type} (truthy : T → Bool) (m : AddressMap T)
    (fuel : Nat) (path : List Key) (part : String) (rest : List String)
    (wcv : Option (List String)) (hp : part ≠ "")
    (hn : m.node (path ++ [Key.str part]) = false)
    (hw : m.node (path ++ [Key.wc]) = true) :
    getFromAddrMapFlat truthy m (fuel + 1) path (part :: rest) wcv
      = ((getFromAddrMapFlat truthy m fuel (path ++ [Key.wc]) rest
            (wcv.map (fun l => l ++ [part]))).1,
         part :: (getFromAddrMapFlat truthy m fuel (path ++ [Key.wc]) rest
            (wcv.map (fun l => l ++ [part]))).2.1,
         (getFromAddrMapFlat truthy m fuel (path ++ [Key.wc]) rest
            (wcv.map (fun l => l ++ [part]))).2.2) := by
  simp [getFromAddrMapFlat, hp, hn, hw, optTruthy]

theorem getFlat_cons_nolit_nowc {T : Type} (truthy : T → Bool) (m : AddressMap T)
    (fuel : Nat) (path : List Key) (part : String) (rest : List String)
    (wcv : Option (List String)) (hp : part ≠ "")
    (hn : m.node (path ++ [Key.str part]) = false)
    (hw : m.node (path ++ [Key.wc]) = false) :
    getFromAddrMapFlat truthy m (fuel + 1) path (part :: rest) wcv
      = (none, part :: rest, wcv) := by
  simp [getFromAddrMapFlat, hp, hn, hw, optTruthy]

/-- The address array never grows: every shifted segment is unshifted at most
once, so the final address is at most as long as the input address.  This
bound justifies using the address length as recursion fuel. -/
theorem getFromAddrMapFlat_length_le {T : Type} (truthy : T → Bool)
    (m : AddressMap T) :
    ∀ (fuel : Nat) (path : List Key) (addr : List String)
      (wcv : Option (List String)),
    (getFromAddrMapFlat truthy m fuel path addr wcv).2.1.length ≤ addr.length := by
  intro fuel
  induction fuel with
  | zero =>
    intro path addr wcv
    match addr with
    | [] => simp [getFlat_nil]
    | part :: rest =>
      by_cases h : part = ""
      · subst h; simp [getFlat_emptyseg]
      · simp [getFlat_zero truthy m path part rest wcv h]
  | succ fuel ih =>
    intro path addr wcv
    match addr with
    | [] => simp [getFlat_nil]
    | part :: rest =>
      by_cases h : part = ""
      · subst h; simp [getFlat_emptyseg]
      · by_cases hn : m.node (path ++ [Key.str part]) = true
        · by_cases ht : optTruthy truthy
              (getFromAddrMapFlat truthy m fuel (path ++ [Key.str part]) rest wcv).1 = true
          · rw [getFlat_cons_lit_truthy truthy m fuel path part rest wcv h hn ht]
            exact Nat.succ_le_succ (ih _ _ _)
          · have htf : optTruthy truthy
                (getFromAddrMapFlat truthy m fuel (path ++ [Key.str part]) rest wcv).1
                  = false := by simpa using ht
            by_cases hw : m.node (path ++ [Key.wc]) = true
            · rw [getFlat_cons_lit_falsy_wc truthy m fuel path part rest wcv h hn htf hw]
              exact Nat.succ_le_succ (le_trans (ih _ _ _) (ih _ _ _))
            · have hwf : m.node (path ++ [Key.wc]) = false := by simpa using hw
              rw [getFlat_cons_lit_falsy_nowc truthy m fuel path part rest wcv h hn htf hwf]
              exact Nat.succ_le_succ (ih _ _ _)
        · have hnf : m.node (path ++ [Key.str part]) = false := by simpa using hn
          by_cases hw : m.node (path ++ [Key.wc]) = true
          · rw [getFlat_cons_nolit_wc truthy m fuel path part rest wcv h hnf hw]
            exact Nat.succ_le_succ (ih _ _ _)
          · have hwf : m.node (path ++ [Key.wc]) = false := by simpa using hw
            rw [getFlat_cons_nolit_nowc truthy m fuel path part rest wcv h hnf hwf]

/-! Elementary lemmas about key paths and `put`. -/

theorem keyPrefixB_iff : ∀ (p q : List Key), keyPrefixB p q = true ↔ p <+: q := by
  intro p
  induction p with
  | nil => intro q; simp [keyPrefixB]
  | cons a as ih =>
    intro q
    cases q with
    | nil => simp [keyPrefixB]
    | cons b bs =>
      simp [keyPrefixB, ih bs, List.cons_prefix_cons, and_comm]

theorem strPath_nil : strPath [] = [] := rfl

theorem strPath_cons (p : String) (r : List String) :
    strPath (p :: r) = Key.str p :: strPath r := rfl

theorem keyPath_map_some (A : List String) (hA : ∀ s ∈ A, s ≠ "") :
    keyPath (A.map some) = strPath A := by
  induction A with
  | nil => rfl
  | cons a as ih =>
    have ha : a ≠ "" := hA a (by simp)
    simp only [List.map_cons, keyPath, strPath, keyOfPart, ha, if_false] at *
    exact congrArg _ (ih (fun s hs => hA s (by simp [hs])))

theorem put_node_prefix {T : Type} (m : AddressMap T)
    (addr : List (Option String)) (v : Option T) (q : List Key)
    (hq : q ≠ []) (hpre : q <+: keyPath addr) :
    (m.put addr v).node q = true := by
  simp [AddressMap.put, hq, (keyPrefixB_iff q (keyPath addr)).2 hpre]

theorem put_node_mono {T : Type} (m : AddressMap T)
    (addr : List (Option String)) (v : Option T) (q : List Key)
    (h : m.node q = true) : (m.put addr v).node q = true := by
  simp [AddressMap.put, h]

theorem put_defaultAt_self {T : Type} (m : AddressMap T)
    (addr : List (Option String)) (v : Option T) :
    (m.put addr v).defaultAt (keyPath addr) = v := by
  simp [AddressMap.put]

theorem put_defaultAt_ne {T : Type} (m : AddressMap T)
    (addr : List (Option String)) (v : Option T) (q : List Key)
    (h : q ≠ keyPath addr) : (m.put addr v).defaultAt q = m.defaultAt q := by
  simp [AddressMap.put, h]

/-- When the full literal path for a concrete address exists in the table and
carries a truthy default, the lookup returns exactly that default, restores
the address, and never touches the wildcard capture sink: at every level the
literal child is preferred and its (truthy) result suppresses the wildcard
branch. -/
theorem getFlat_literal_dominates {T : Type} (truthy : T → Bool)
    (m : AddressMap T) :
    ∀ (fuel : Nat) (path : List Key) (addr : List String)
      (wcv : Option (List String)),
      addr.length ≤ fuel →
      (∀ s ∈ addr, s ≠ "") →
      (∀ k, k < addr.length → m.node (path ++ strPath (addr.take (k + 1))) = true) →
      optTruthy truthy (m.defaultAt (path ++ strPath addr)) = true →
      getFromAddrMapFlat truthy m fuel path addr wcv
        = (m.defaultAt (path ++ strPath addr), addr, wcv) := by
  intro fuel
  induction fuel with
  | zero =>
    intro path addr wcv hlen _ _ _
    match addr, hlen with
    | [], _ => simp [getFlat_nil, strPath]
  | succ fuel ih =>
    intro path addr wcv hlen hne hnode hd
    match addr with
    | [] => simp [getFlat_nil, strPath]
    | part :: rest =>
      have hp : part ≠ "" := hne part (by simp)
      have hn0 : m.node (path ++ [Key.str part]) = true := by
        have h0 := hnode 0 (by simp)
        simpa [strPath] using h0
      have hgoal : (path ++ [Key.str part]) ++ strPath rest
          = path ++ strPath (part :: rest) := by
        simp [strPath]
      have hrec := ih (path ++ [Key.str part]) rest wcv
        (by simpa using hlen)
        (fun s hs => hne s (List.mem_cons_of_mem _ hs))
        (fun k hk => by
          have hk2 := hnode (k + 1) (by simpa using Nat.succ_lt_succ hk)
          simpa [strPath, List.append_assoc] using hk2)
        (by simpa [strPath, List.append_assoc] using hd)
      have ht : optTruthy truthy
          (getFromAddrMapFlat truthy m fuel (path ++ [Key.str part]) rest wcv).1 = true := by
        rw [hrec, hgoal]
        exact hd
      rw [getFlat_cons_lit_truthy truthy m fuel path part rest wcv hp hn0 ht, hrec, hgoal]

/-- C1: for every AddressMap, every concrete address A (of nonempty literal
segments) and every pattern P that differs from A only by wildcard segments,
after putting a value at P and a truthy value at A, get(A) returns the value
stored under A: the literal-segment child is preferred over the wildcard
child at every trie level, and the wildcard branch is only taken when the
literal branch yields nothing.  The two closed conjuncts check the spec
example put(["a",*,"c"],1); put(["a","b","c"],2); get(["a","b","c"]) = 2 and
get(["a","z","c"]) = 1, where both branches hold a result at the same depth. -/
theorem claim_C1_literal_beats_wildcard :
    (∀ (T : Type) (truthy : T → Bool) (m : AddressMap T)
       (A : List String) (P : List (Option String)) (v1 v2 : T)
       (wcv : Option (List String)),
       (∀ s ∈ A, s ≠ "") →
       List.Forall₂ (fun p a => p = none ∨ p = some a) P A →
       truthy v2 = true →
       (((m.put P (some v1)).put (A.map some) (some v2)).get truthy A wcv).1
         = some v2)
    ∧ (((AddressMap.empty.put [some "a", none, some "c"] (some 1)).put
          (["a", "b", "c"].map some) (some (2 : Nat))).get
          (fun n => decide (n ≠ 0)) ["a", "b", "c"] none).1 = some 2
    ∧ (((AddressMap.empty.put [some "a", none, some "c"] (some 1)).put
          (["a", "b", "c"].map some) (some (2 : Nat))).get
          (fun n => decide (n ≠ 0)) ["a", "z", "c"] none).1 = some 1 := by
  refine ⟨?_, by decide, by decide⟩
  intro T truthy m A P v1 v2 wcv hA hP hv2
  have hkey : keyPath (A.map some) = strPath A := keyPath_map_some A hA
  set m2 := (m.put P (some v1)).put (A.map some) (some v2) with hm2
  have hd : m2.defaultAt (strPath A) = some v2 := by
    rw [← hkey]; exact put_defaultAt_self _ _ _
  have hnode : ∀ k, k < A.length → m2.node (strPath (A.take (k + 1))) = true := by
    intro k hk
    apply put_node_prefix
    · have hlt : (A.take (k + 1)).length = k + 1 := by
        simp [List.length_take]; omega
      intro hcon
      have : A.take (k + 1) = [] := by
        simpa [strPath, List.map_eq_nil_iff] using hcon
      rw [this] at hlt
      simp at hlt
    · rw [hkey]
      have hmt : strPath (A.take (k + 1)) = (strPath A).take (k + 1) := by
        simp [strPath, List.map_take]
      rw [hmt]
      exact List.take_prefix _ _
  have hflat := getFlat_literal_dominates truthy m2 A.length [] A wcv
    (le_refl _) hA (by simpa using hnode) (by simp [hd, hv2, optTruthy])
  simp only [AddressMap.get, hflat, List.nil_append]
  simp [hd, hv2, optTruthy]

/-- Witness for C1: the general conjunct applied at a concrete map, pattern
and address. -/
theorem claim_C1_literal_beats_wildcard_witness :
    (((AddressMap.empty.put [some "x", none] (some 5)).put
        (["x", "y"].map some) (some (7 : Nat))).get
        (fun n => decide (n ≠ 0)) ["x", "y"] none).1 = some 7 :=
  claim_C1_literal_beats_wildcard.1 Nat (fun n => decide (n ≠ 0))
    AddressMap.empty ["x", "y"] [some "x", none] 5 7 none
    (by decide)
    (List.Forall₂.cons (Or.inr rfl)
      (List.Forall₂.cons (Or.inl rfl) List.Forall₂.nil))
    (by decide)

theorem AddressMap.extEq {T : Type} {m1 m2 : AddressMap T}
    (hn : ∀ q, m1.node q = m2.node q)
    (hd : ∀ q, m1.defaultAt q = m2.defaultAt q) : m1 = m2 := by
  cases m1; cases m2
  simp only [AddressMap.mk.injEq]
  exact ⟨funext hn, funext hd⟩

/-- C6: putting an absent value deletes only the default entry at that exact
address: the default at the key path becomes absent, every other default is
untouched and every existing table node (all children) stays in place.
Moreover storing a value and then deleting it yields a table identical to
deleting alone, so no subsequent get can ever observe the deleted value.
The closed conjuncts show a subsequent get returning the next-most-specific
remaining match: the wildcard sibling value, or the root default, and never
the deleted value. -/
theorem claim_C6_delete_exact :
    (∀ (T : Type) (m : AddressMap T) (addr : List (Option String)),
       ((m.put addr none).defaultAt (keyPath addr) = none)
       ∧ (∀ q, q ≠ keyPath addr → (m.put addr none).defaultAt q = m.defaultAt q)
       ∧ (∀ q, m.node q = true → (m.put addr none).node q = true))
    ∧ (∀ (T : Type) (m : AddressMap T) (addr : List (Option String)) (v : T),
       (m.put addr (some v)).put addr none = m.put addr none)
    ∧ ((((AddressMap.empty.put [some "a", none] (some 1)).put
          [some "a", some "b"] (some 2)).put [some "a", some "b"] none).get
          (fun n => decide (n ≠ 0)) ["a", "b"] none).1 = some 1
    ∧ ((((AddressMap.empty.put [] (some 5)).put
          [some "a", some "b"] (some (2 : Nat))).put [some "a", some "b"] none).get
          (fun n => decide (n ≠ 0)) ["a", "b"] none).1 = some 5 := by
  refine ⟨?_, ?_, by decide, by decide⟩
  · intro T m addr
    refine ⟨put_defaultAt_self _ _ _, fun q hq => put_defaultAt_ne _ _ _ _ hq,
      fun q hq => put_node_mono _ _ _ _ hq⟩
  · intro T m addr v
    apply AddressMap.extEq
    · intro q
      simp [AddressMap.put, Bool.or_assoc]
    · intro q
      by_cases hq : q = keyPath addr <;> simp [AddressMap.put, hq]

/-- Witness for C6: the deletion conjuncts applied at a concrete map and
address, including an instance of the untouched-elsewhere clause. -/
theorem claim_C6_delete_exact_witness :
    (((AddressMap.empty (T := Nat)).put [some "a"] none).defaultAt
        (keyPath [some "a"]) = none)
    ∧ (((AddressMap.empty (T := Nat)).put [some "a"] none).defaultAt
        [Key.str "b"] = (AddressMap.empty (T := Nat)).defaultAt [Key.str "b"])
    ∧ (((AddressMap.empty (T := Nat)).put [some "a"] (some 3)).put [some "a"] none
        = (AddressMap.empty (T := Nat)).put [some "a"] none) :=
  ⟨(claim_C6_delete_exact.1 Nat AddressMap.empty [some "a"]).1,
   (claim_C6_delete_exact.1 Nat AddressMap.empty [some "a"]).2.1
     [Key.str "b"] (by decide),
   claim_C6_delete_exact.2.1 Nat AddressMap.empty [some "a"] 3⟩

/-- C9 failing input: on the address containing an empty-string segment, the
early return of `getFromAddrMapFlat` skips the final `addr.unshift(part)`,
so get returns with the input address array truncated to `[]` instead of
leaving it as `[""]` — the code mutates the input address on this input,
contradicting the intent shown by the `does not mutate address` test and the
restoring `unshift` call. -/
theorem claim_C9_get_mutates_on_empty_segment :
    ((AddressMap.empty (T := Nat)).get (fun n => decide (n ≠ 0)) [""] none).2.1 = []
    ∧ [""] ≠ ([] : List String) := by
  exact ⟨by decide, by decide⟩

/-- Deleting a default entry from a table. -/
def AddressMap.eraseDefault {T : Type} (m : AddressMap T) (q0 : List Key) :
    AddressMap T :=
  { node := m.node, defaultAt := fun q => if q = q0 then none else m.defaultAt q }

/-- Two tables with the same nodes whose defaults agree everywhere except at
one path, where both are falsy or absent, are indistinguishable to the
lookup: same truthiness of the result, same result when truthy, same final
address and same capture sink.  This is the heart of the falsy-fallthrough
behaviour of `!data` and of the final `|| table[DefaultEntryKey]`. -/
theorem getFlat_falsy_indistinguishable {T : Type} (truthy : T → Bool)
    (m1 m2 : AddressMap T) (q0 : List Key)
    (hnode : ∀ q, m1.node q = m2.node q)
    (hdef : ∀ q, q ≠ q0 → m1.defaultAt q = m2.defaultAt q)
    (h1 : optTruthy truthy (m1.defaultAt q0) = false)
    (h2 : optTruthy truthy (m2.defaultAt q0) = false) :
    ∀ (fuel : Nat) (path : List Key) (addr : List String)
      (wcv : Option (List String)),
      optTruthy truthy (getFromAddrMapFlat truthy m1 fuel path addr wcv).1
        = optTruthy truthy (getFromAddrMapFlat truthy m2 fuel path addr wcv).1
      ∧ (optTruthy truthy (getFromAddrMapFlat truthy m1 fuel path addr wcv).1 = true →
          (getFromAddrMapFlat truthy m1 fuel path addr wcv).1
            = (getFromAddrMapFlat truthy m2 fuel path addr wcv).1)
      ∧ (getFromAddrMapFlat truthy m1 fuel path addr wcv).2
          = (getFromAddrMapFlat truthy m2 fuel path addr wcv).2 := by
  have hdefAt : ∀ p : List Key,
      optTruthy truthy (m1.defaultAt p) = optTruthy truthy (m2.defaultAt p)
      ∧ (optTruthy truthy (m1.defaultAt p) = true →
          m1.defaultAt p = m2.defaultAt p) := by
    intro p
    by_cases hp : p = q0
    · subst hp
      exact ⟨h1.trans h2.symm, fun h => absurd h (by simp [h1])⟩
    · rw [hdef p hp]
      exact ⟨rfl, fun _ => rfl⟩
  intro fuel
  induction fuel with
  | zero =>
    intro path addr wcv
    match addr with
    | [] =>
      rw [getFlat_nil, getFlat_nil]
      exact ⟨(hdefAt path).1, (hdefAt path).2, rfl⟩
    | part :: rest =>
      by_cases hp : part = ""
      · subst hp
        rw [getFlat_emptyseg, getFlat_emptyseg]
        exact ⟨(hdefAt path).1, (hdefAt path).2, rfl⟩
      · rw [getFlat_zero truthy m1 path part rest wcv hp,
          getFlat_zero truthy m2 path part rest wcv hp]
        exact ⟨rfl, fun _ => rfl, rfl⟩
  | succ fuel ih =>
    intro path addr wcv
    match addr with
    | [] =>
      rw [getFlat_nil, getFlat_nil]
      exact ⟨(hdefAt path).1, (hdefAt path).2, rfl⟩
    | part :: rest =>
      by_cases hp : part = ""
      · subst hp
        rw [getFlat_emptyseg, getFlat_emptyseg]
        exact ⟨(hdefAt path).1, (hdefAt path).2, rfl⟩
      · by_cases hn : m1.node (path ++ [Key.str part]) = true
        · obtain ⟨ihA1, ihA2, ihA3⟩ := ih (path ++ [Key.str part]) rest wcv
          have h31 : (getFromAddrMapFlat truthy m1 fuel (path ++ [Key.str part]) rest wcv).2.1
              = (getFromAddrMapFlat truthy m2 fuel (path ++ [Key.str part]) rest wcv).2.1 :=
            congrArg Prod.fst ihA3
          have h32 : (getFromAddrMapFlat truthy m1 fuel (path ++ [Key.str part]) rest wcv).2.2
              = (getFromAddrMapFlat truthy m2 fuel (path ++ [Key.str part]) rest wcv).2.2 :=
            congrArg Prod.snd ihA3
          by_cases ht : optTruthy truthy
              (getFromAddrMapFlat truthy m1 fuel (path ++ [Key.str part]) rest wcv).1 = true
          · have ht2 : optTruthy truthy
                (getFromAddrMapFlat truthy m2 fuel (path ++ [Key.str part]) rest wcv).1 = true := by
              rw [← ihA1]; exact ht
            rw [getFlat_cons_lit_truthy truthy m1 fuel path part rest wcv hp hn ht,
              getFlat_cons_lit_truthy truthy m2 fuel path part rest wcv hp
                (hnode (path ++ [Key.str part]) ▸ hn) ht2]
            exact ⟨ihA1, fun _ => ihA2 ht, by rw [h31, h32]⟩
          · have htf : optTruthy truthy
                (getFromAddrMapFlat truthy m1 fuel (path ++ [Key.str part]) rest wcv).1
                  = false := by simpa using ht
            have ht2f : optTruthy truthy
                (getFromAddrMapFlat truthy m2 fuel (path ++ [Key.str part]) rest wcv).1
                  = false := by rw [← ihA1]; exact htf
            by_cases hw : m1.node (path ++ [Key.wc]) = true
            · rw [getFlat_cons_lit_falsy_wc truthy m1 fuel path part rest wcv hp hn htf hw,
                getFlat_cons_lit_falsy_wc truthy m2 fuel path part rest wcv hp
                  (hnode (path ++ [Key.str part]) ▸ hn) ht2f
                  (hnode (path ++ [Key.wc]) ▸ hw)]
              rw [← h31, ← h32]
              obtain ⟨ihB1, ihB2, ihB3⟩ := ih (path ++ [Key.wc])
                (getFromAddrMapFlat truthy m1 fuel (path ++ [Key.str part]) rest wcv).2.1
                ((getFromAddrMapFlat truthy m1 fuel (path ++ [Key.str part]) rest wcv).2.2.map
                  (fun l => l ++ [part]))
              have hB31 := congrArg Prod.fst ihB3
              have hB32 := congrArg Prod.snd ihB3
              exact ⟨ihB1, fun hx => ihB2 hx, by rw [hB31, hB32]⟩
            · have hwf : m1.node (path ++ [Key.wc]) = false := by simpa using hw
              rw [getFlat_cons_lit_falsy_nowc truthy m1 fuel path part rest wcv hp hn htf hwf,
                getFlat_cons_lit_falsy_nowc truthy m2 fuel path part rest wcv hp
                  (hnode (path ++ [Key.str part]) ▸ hn) ht2f
                  (hnode (path ++ [Key.wc]) ▸ hwf)]
              exact ⟨ihA1, fun hx => absurd hx ht, by rw [h31, h32]⟩
        · have hnf : m1.node (path ++ [Key.str part]) = false := by simpa using hn
          by_cases hw : m1.node (path ++ [Key.wc]) = true
          · rw [getFlat_cons_nolit_wc truthy m1 fuel path part rest wcv hp hnf hw,
              getFlat_cons_nolit_wc truthy m2 fuel path part rest wcv hp
                (hnode (path ++ [Key.str part]) ▸ hnf)
                (hnode (path ++ [Key.wc]) ▸ hw)]
            obtain ⟨ihB1, ihB2, ihB3⟩ := ih (path ++ [Key.wc]) rest
              (wcv.map (fun l => l ++ [part]))
            have hB31 := congrArg Prod.fst ihB3
            have hB32 := congrArg Prod.snd ihB3
            exact ⟨ihB1, fun hx => ihB2 hx, by rw [hB31, hB32]⟩
          · have hwf : m1.node (path ++ [Key.wc]) = false := by simpa using hw
            rw [getFlat_cons_nolit_nowc truthy m1 fuel path part rest wcv hp hnf hwf,
              getFlat_cons_nolit_nowc truthy m2 fuel path part rest wcv hp
                (hnode (path ++ [Key.str part]) ▸ hnf)
                (hnode (path ++ [Key.wc]) ▸ hwf)]
            exact ⟨rfl, fun _ => rfl, rfl⟩

/-- The method `can` of `LegacyAccessController` in `src/accesscontrol.ts`:
a direct policy lookup in an AddressMap of `AccessPolicy` values, where
`AccessPolicy` is the type boolean (`ALLOW = true`, `DENY = false`), so the
JavaScript truthiness of a stored policy is the policy value itself. -/
def LegacyAccessController.can (m : AddressMap Bool) (toAddr : List String) :
    Option Bool :=
  (m.get (fun b => b) toAddr none).1

/-- C10: a falsy stored value is treated by get exactly like an absent one.
The first conjunct states it for any AddressMap: when the value stored at a
concrete nonempty address is falsy, the whole get result (value, final
address and capture sink) is identical to the one on the map with that entry
erased — the lookup falls through to the wildcard branches and to the root
default exactly as if nothing were stored.  The second conjunct instantiates
this for the LegacyAccessController policy map storing DENY (the boolean
false).  The closed conjuncts show a stored DENY being overridden by a
wildcard ALLOW and a stored DENY producing the same verdict as no entry. -/
theorem claim_C10_falsy_values_invisible :
    (∀ (T : Type) (truthy : T → Bool) (m : AddressMap T) (addr : List String)
       (v : T) (wcv : Option (List String)),
       addr ≠ [] →
       m.defaultAt (strPath addr) = some v →
       truthy v = false →
       m.get truthy addr wcv
         = (m.eraseDefault (strPath addr)).get truthy addr wcv)
    ∧ (∀ (m : AddressMap Bool) (addr : List String),
       addr ≠ [] →
       m.defaultAt (strPath addr) = some false →
       LegacyAccessController.can m addr
         = LegacyAccessController.can (m.eraseDefault (strPath addr)) addr)
    ∧ LegacyAccessController.can
        ((AddressMap.empty.put [some "a"] (some false)).put [none] (some true))
        ["a"] = some true
    ∧ LegacyAccessController.can
        (AddressMap.empty.put [some "a"] (some false)) ["a"] = none := by
  have main : ∀ (T : Type) (truthy : T → Bool) (m : AddressMap T)
      (addr : List String) (v : T) (wcv : Option (List String)),
      addr ≠ [] →
      m.defaultAt (strPath addr) = some v →
      truthy v = false →
      m.get truthy addr wcv
        = (m.eraseDefault (strPath addr)).get truthy addr wcv := by
    intro T truthy m addr v wcv hne hdef hv
    obtain ⟨c1, c2, c3⟩ := getFlat_falsy_indistinguishable truthy m
      (m.eraseDefault (strPath addr)) (strPath addr)
      (fun q => rfl)
      (fun q hq => by simp [AddressMap.eraseDefault, hq])
      (by simp [hdef, optTruthy, hv])
      (by simp [AddressMap.eraseDefault, optTruthy])
      addr.length [] addr wcv
    have hroot0 : ([] : List Key) ≠ strPath addr := by
      cases addr with
      | nil => exact absurd rfl hne
      | cons a as => simp [strPath]
    have hroot : (m.eraseDefault (strPath addr)).defaultAt [] = m.defaultAt [] := by
      simp [AddressMap.eraseDefault, hroot0]
    have h21 := congrArg Prod.fst c3
    have h22 := congrArg Prod.snd c3
    show (if optTruthy truthy
            (getFromAddrMapFlat truthy m addr.length [] addr wcv).1 = true then
            (getFromAddrMapFlat truthy m addr.length [] addr wcv).1
          else m.defaultAt [],
          (getFromAddrMapFlat truthy m addr.length [] addr wcv).2.1,
          (getFromAddrMapFlat truthy m addr.length [] addr wcv).2.2)
        = (if optTruthy truthy
            (getFromAddrMapFlat truthy (m.eraseDefault (strPath addr))
              addr.length [] addr wcv).1 = true then
            (getFromAddrMapFlat truthy (m.eraseDefault (strPath addr))
              addr.length [] addr wcv).1
          else (m.eraseDefault (strPath addr)).defaultAt [],
          (getFromAddrMapFlat truthy (m.eraseDefault (strPath addr))
            addr.length [] addr wcv).2.1,
          (getFromAddrMapFlat truthy (m.eraseDefault (strPath addr))
            addr.length [] addr wcv).2.2)
    rw [← c1, ← h21, ← h22, hroot]
    by_cases htr : optTruthy truthy
        (getFromAddrMapFlat truthy m addr.length [] addr wcv).1 = true
    · simp [htr, c2 htr]
    · simp [htr]
  refine ⟨main, ?_, by decide, by decide⟩
  intro m addr hne hdef
  unfold LegacyAccessController.can
  rw [main Bool (fun b => b) m addr false none hne hdef rfl]

/-- Witness for C10: a concrete map storing DENY at a concrete address gives
the same legacy verdict as the map with the entry erased. -/
theorem claim_C10_falsy_values_invisible_witness :
    LegacyAccessController.can
        (AddressMap.empty.put [some "a"] (some false)) ["a"]
      = LegacyAccessController.can
          ((AddressMap.empty.put [some "a"] (some false)).eraseDefault
            (strPath ["a"])) ["a"] :=
  claim_C10_falsy_values_invisible.2.1
    (AddressMap.empty.put [some "a"] (some false)) ["a"]
    (by decide) (by decide)

/-- The wildcard capture sink is write-only and append-only: a run with no
sink never creates one; the returned value and the final address do not
depend on the sink; and a run started with sink contents `ws` ends with
`ws ++ delta` where `delta` is exactly what a run started with an empty sink
produces — the segments consumed via the wildcard branch, in traversal
order. -/
theorem getFlat_sink_append {T : Type} (truthy : T → Bool) (m : AddressMap T) :
    ∀ (fuel : Nat) (path : List Key) (addr : List String) (ws : List String),
      (getFromAddrMapFlat truthy m fuel path addr none).2.2 = none
      ∧ (getFromAddrMapFlat truthy m fuel path addr (some ws)).1
        = (getFromAddrMapFlat truthy m fuel path addr none).1
      ∧ (getFromAddrMapFlat truthy m fuel path addr (some ws)).2.1
        = (getFromAddrMapFlat truthy m fuel path addr none).2.1
      ∧ (getFromAddrMapFlat truthy m fuel path addr (some ws)).2.2
        = some (ws ++
            ((getFromAddrMapFlat truthy m fuel path addr (some [])).2.2.getD [])) := by
  intro fuel
  induction fuel with
  | zero =>
    intro path addr ws
    match addr with
    | [] =>
      rw [getFlat_nil, getFlat_nil, getFlat_nil]
      exact ⟨rfl, rfl, rfl, by simp⟩
    | part :: rest =>
      by_cases hp : part = ""
      · subst hp
        rw [getFlat_emptyseg, getFlat_emptyseg, getFlat_emptyseg]
        exact ⟨rfl, rfl, rfl, by simp⟩
      · rw [getFlat_zero truthy m path part rest (some ws) hp,
          getFlat_zero truthy m path part rest none hp,
          getFlat_zero truthy m path part rest (some []) hp]
        exact ⟨rfl, rfl, rfl, by simp⟩
  | succ fuel ih =>
    intro path addr ws
    match addr with
    | [] =>
      rw [getFlat_nil, getFlat_nil, getFlat_nil]
      exact ⟨rfl, rfl, rfl, by simp⟩
    | part :: rest =>
      by_cases hp : part = ""
      · subst hp
        rw [getFlat_emptyseg, getFlat_emptyseg, getFlat_emptyseg]
        exact ⟨rfl, rfl, rfl, by simp⟩
      · obtain ⟨A0, A1, A2, A3⟩ := ih (path ++ [Key.str part]) rest ws
        obtain ⟨_, Ae1, Ae2, Ae3⟩ := ih (path ++ [Key.str part]) rest []
        by_cases hn : m.node (path ++ [Key.str part]) = true
        · by_cases htn : optTruthy truthy
              (getFromAddrMapFlat truthy m fuel (path ++ [Key.str part]) rest none).1 = true
          · have ht_ws : optTruthy truthy
                (getFromAddrMapFlat truthy m fuel (path ++ [Key.str part]) rest (some ws)).1
                  = true := by rw [A1]; exact htn
            have ht_se : optTruthy truthy
                (getFromAddrMapFlat truthy m fuel (path ++ [Key.str part]) rest (some [])).1
                  = true := by rw [Ae1]; exact htn
            rw [getFlat_cons_lit_truthy truthy m fuel path part rest (some ws) hp hn ht_ws,
              getFlat_cons_lit_truthy truthy m fuel path part rest none hp hn htn,
              getFlat_cons_lit_truthy truthy m fuel path part rest (some []) hp hn ht_se]
            exact ⟨A0, A1, by rw [A2], by rw [A3]⟩
          · have htf : optTruthy truthy
                (getFromAddrMapFlat truthy m fuel (path ++ [Key.str part]) rest none).1
                  = false := by simpa using htn
            have htf_ws : optTruthy truthy
                (getFromAddrMapFlat truthy m fuel (path ++ [Key.str part]) rest (some ws)).1
                  = false := by rw [A1]; exact htf
            have htf_se : optTruthy truthy
                (getFromAddrMapFlat truthy m fuel (path ++ [Key.str part]) rest (some [])).1
                  = false := by rw [Ae1]; exact htf
            by_cases hw : m.node (path ++ [Key.wc]) = true
            · rw [getFlat_cons_lit_falsy_wc truthy m fuel path part rest (some ws) hp hn htf_ws hw,
                getFlat_cons_lit_falsy_wc truthy m fuel path part rest none hp hn htf hw,
                getFlat_cons_lit_falsy_wc truthy m fuel path part rest (some []) hp hn htf_se hw]
              rw [A2, Ae2, A3, A0, Ae3]
              simp only [Option.map_some', Option.map_none', List.nil_append,
                Option.getD_some]
              obtain ⟨B0, B1, B2, B3⟩ := ih (path ++ [Key.wc])
                (getFromAddrMapFlat truthy m fuel (path ++ [Key.str part]) rest none).2.1
                ((ws ++ (getFromAddrMapFlat truthy m fuel
                  (path ++ [Key.str part]) rest (some [])).2.2.getD []) ++ [part])
              obtain ⟨_, _, _, Be3⟩ := ih (path ++ [Key.wc])
                (getFromAddrMapFlat truthy m fuel (path ++ [Key.str part]) rest none).2.1
                (((getFromAddrMapFlat truthy m fuel
                  (path ++ [Key.str part]) rest (some [])).2.2.getD []) ++ [part])
              refine ⟨B0, by rw [B1], by rw [B2], ?_⟩
              rw [B3, Be3]
              simp [List.append_assoc]
            · have hwf : m.node (path ++ [Key.wc]) = false := by simpa using hw
              rw [getFlat_cons_lit_falsy_nowc truthy m fuel path part rest (some ws) hp hn htf_ws hwf,
                getFlat_cons_lit_falsy_nowc truthy m fuel path part rest none hp hn htf hwf,
                getFlat_cons_lit_falsy_nowc truthy m fuel path part rest (some []) hp hn htf_se hwf]
              exact ⟨A0, A1, by rw [A2], by rw [A3]⟩
        · have hnf : m.node (path ++ [Key.str part]) = false := by simpa using hn
          by_cases hw : m.node (path ++ [Key.wc]) = true
          · rw [getFlat_cons_nolit_wc truthy m fuel path part rest (some ws) hp hnf hw,
              getFlat_cons_nolit_wc truthy m fuel path part rest none hp hnf hw,
              getFlat_cons_nolit_wc truthy m fuel path part rest (some []) hp hnf hw]
            simp only [Option.map_some', Option.map_none', List.nil_append,
              Option.getD_some]
            obtain ⟨B0, B1, B2, B3⟩ := ih (path ++ [Key.wc]) rest (ws ++ [part])
            obtain ⟨_, _, _, Be3⟩ := ih (path ++ [Key.wc]) rest [part]
            refine ⟨B0, by rw [B1], by rw [B2], ?_⟩
            rw [B3, Be3]
            simp [List.append_assoc]
          · have hwf : m.node (path ++ [Key.wc]) = false := by simpa using hw
            rw [getFlat_cons_nolit_nowc truthy m fuel path part rest (some ws) hp hnf hwf,
              getFlat_cons_nolit_nowc truthy m fuel path part rest none hp hnf hwf,
              getFlat_cons_nolit_nowc truthy m fuel path part rest (some []) hp hnf hwf]
            exact ⟨rfl, rfl, rfl, by simp⟩

/-! Serializer (`src/serializer.ts`). -/

/-- Primitive JavaScript values passed through unchanged by the serializer
(`undefined`, `null`, booleans, numbers, strings, bigints); numbers are
modeled as integers. -/
inductive JsPrim where
  | undef
  | jsNull
  | jsBool (b : Bool)
  | num (n : Int)
  | str (s : String)
  | bigint (n : Int)
deriving DecidableEq, Repr

/-- An Error object: `name`, `message`, an optional `stack`, and the
nonstandard positional fields `columnNumber`, `lineNumber`, `fileName`,
which may be absent (`undefined`) on most platforms. -/
structure JsError where
  name : String
  message : String
  stack : Option String
  columnNumber : Option Int
  lineNumber : Option Int
  fileName : Option String
deriving DecidableEq, Repr

/-- The `SerializableData` fragment the claims concern: primitives, Error
instances, transferable handles (identified by an id), arrays and plain
objects.  Values carrying a custom `toRpcSerialized` hook, symbols and
functions are outside this fragment (the latter two make `rpcSerialize`
throw). -/
inductive SerializableData where
  | prim (p : JsPrim)
  | err (e : JsError)
  | transfer (id : Nat)
  | arr (xs : List SerializableData)
  | obj (fields : List (String × SerializableData))

/-- Wire-safe values produced by the serializer (no Error objects: they are
converted to plain objects). -/
inductive SerializedData where
  | prim (p : JsPrim)
  | transfer (id : Nat)
  | arr (xs : List SerializedData)
  | obj (fields : List (String × SerializedData))

/-- The serialized form of an optional numeric error field: passed through,
`undefined` when absent. -/
def serializeOptNum : Option Int → SerializedData
  | some n => SerializedData.prim (JsPrim.num n)
  | none => SerializedData.prim JsPrim.undef

/-- The serialized form of an optional string error field. -/
def serializeOptStr : Option String → SerializedData
  | some s => SerializedData.prim (JsPrim.str s)
  | none => SerializedData.prim JsPrim.undef

mutual

/-- The function `rpcSerialize` of `src/serializer.ts` on the modeled value
fragment.  The `List Nat` argument is the `xfer` array of transferable
handles, mutated by `push`; the updated array is returned alongside the
result.  Branches follow the source switch: primitives are returned
unchanged; a transferable is pushed to `xfer` and returned as is; an `Error`
instance becomes a plain object whose `stack` is the fixed redaction string
while `name`, `message` and the positional fields are passed through (even
when absent); arrays map elementwise; plain objects map per key. -/
def rpcSerialize : SerializableData → List Nat → SerializedData × List Nat
  | SerializableData.prim p, xfer => (SerializedData.prim p, xfer)
  | SerializableData.transfer t, xfer => (SerializedData.transfer t, xfer ++ [t])
  | SerializableData.err e, xfer =>
    (SerializedData.obj
      [("name", SerializedData.prim (JsPrim.str e.name)),
       ("message", SerializedData.prim (JsPrim.str e.message)),
       ("stack", SerializedData.prim
         (JsPrim.str "Stack trace redacted for security reasons")),
       ("columnNumber", serializeOptNum e.columnNumber),
       ("lineNumber", serializeOptNum e.lineNumber),
       ("fileName", serializeOptStr e.fileName)], xfer)
  | SerializableData.arr xs, xfer =>
    let r := rpcSerializeList xs xfer
    (SerializedData.arr r.1, r.2)
  | SerializableData.obj fs, xfer =>
    let r := rpcSerializeFields fs xfer
    (SerializedData.obj r.1, r.2)

/-- Elementwise serialization of an array, threading the `xfer` array in
element order (the source `data.map((e) => rpcSerialize(e, xfer))`). -/
def rpcSerializeList :
    List SerializableData → List Nat → List SerializedData × List Nat
  | [], xfer => ([], xfer)
  | x :: xs, xfer =>
    let r := rpcSerialize x xfer
    let rs := rpcSerializeList xs r.2
    (r.1 :: rs.1, rs.2)

/-- Per-key serialization of a plain object, threading the `xfer` array in
key order (the source `Object.keys(data).forEach` loop). -/
def rpcSerializeFields :
    List (String × SerializableData) → List Nat →
    List (String × SerializedData) × List Nat
  | [], xfer => ([], xfer)
  | (k, v) :: fs, xfer =>
    let r := rpcSerialize v xfer
    let rs := rpcSerializeFields fs r.2
    ((k, r.1) :: rs.1, rs.2)

end

/-- C5: for every Error value, rpcSerialize produces the object
`{ name, message, stack, columnNumber, lineNumber, fileName }` whose stack
field is always the fixed redaction string and never the original stack
trace, the positional fields being passed through even when absent, and the
transferables array being left untouched; consequently two Error inputs that
differ only in their stack field serialize to identical outputs, so no
information about the stack reaches the wire. -/
theorem claim_C5_error_stack_redacted :
    (∀ (e : JsError) (xfer : List Nat),
       rpcSerialize (SerializableData.err e) xfer
         = (SerializedData.obj
             [("name", SerializedData.prim (JsPrim.str e.name)),
              ("message", SerializedData.prim (JsPrim.str e.message)),
              ("stack", SerializedData.prim
                (JsPrim.str "Stack trace redacted for security reasons")),
              ("columnNumber", serializeOptNum e.columnNumber),
              ("lineNumber", serializeOptNum e.lineNumber),
              ("fileName", serializeOptStr e.fileName)], xfer))
    ∧ (∀ (e : JsError) (s1 s2 : Option String) (xfer : List Nat),
       rpcSerialize (SerializableData.err { e with stack := s1 }) xfer
         = rpcSerialize (SerializableData.err { e with stack := s2 }) xfer) := by
  constructor
  · intro e xfer
    rfl
  · intro e s1 s2 xfer
    rfl

/-! Access controllers (`src/accesscontrol.ts`). -/

/-- The tri-state `OptAccessPolicy`: `some true` is `ALLOW`, `some false` is
`DENY`, `none` is `NONE`/`undefined` (UNDECIDED).  The `isDefined` helper of
`src/utils.ts` holds exactly of the `some` values. -/
abbrev OptAccessPolicy := Option Bool

/-- The loop of `ChainedAccessController.can`:
`this.access_chain.some((ctrl) => isDefined((val = ctrl.can(addr, opts))))`.
Sub-controllers are modeled by their `can` functions.  `Array.some` invokes
the callback on each element in order and stops at the first truthy callback
result, i.e. at the first sub-controller whose verdict is defined; `val`
ends up holding the verdict of the last sub-controller invoked (or stays
`undefined` on an empty chain).  The result is that final value of `val`
together with the number of sub-controllers invoked. -/
def accessChainEval {A O : Type} :
    List (A → O → OptAccessPolicy) → A → O → OptAccessPolicy × Nat
  | [], _, _ => (none, 0)
  | ctrl :: rest, addr, opts =>
    if (ctrl addr opts).isSome then (ctrl addr opts, 1)
    else ((accessChainEval rest addr opts).1,
      (accessChainEval rest addr opts).2 + 1)

/-- The class `ChainedAccessController`: an ordered chain of sub-controllers
and a fallback default. -/
structure ChainedAccessController (A O : Type) where
  access_chain : List (A → O → OptAccessPolicy)
  default_ap : OptAccessPolicy

/-- The method `ChainedAccessController.can`:
`return isDefined(val) ? val : this.default_ap`. -/
def ChainedAccessController.can {A O : Type} (c : ChainedAccessController A O)
    (addr : A) (opts : O) : OptAccessPolicy :=
  if (accessChainEval c.access_chain addr opts).1.isSome then
    (accessChainEval c.access_chain addr opts).1
  else c.default_ap

/-- Specification of the chain walk: with `k` the index of the first
sub-controller returning a defined verdict, exactly `min (k + 1) length`
sub-controllers are invoked; when such a controller exists the loop value is
its verdict (which is defined); when none exists the loop value is
undefined. -/
theorem accessChainEval_spec {A O : Type} :
    ∀ (chain : List (A → O → OptAccessPolicy)) (addr : A) (opts : O),
      ((accessChainEval chain addr opts).2
        = min (chain.findIdx (fun ctrl => (ctrl addr opts).isSome) + 1)
            chain.length)
      ∧ (chain.findIdx (fun ctrl => (ctrl addr opts).isSome) < chain.length →
          ∃ f, chain[chain.findIdx (fun ctrl => (ctrl addr opts).isSome)]? = some f
            ∧ (accessChainEval chain addr opts).1 = f addr opts
            ∧ (f addr opts).isSome = true)
      ∧ (¬ chain.findIdx (fun ctrl => (ctrl addr opts).isSome) < chain.length →
          (accessChainEval chain addr opts).1 = none) := by
  intro chain
  induction chain with
  | nil =>
    intro addr opts
    refine ⟨by simp [accessChainEval], ?_, fun _ => rfl⟩
    intro h
    simp at h
  | cons ctrl rest ih =>
    intro addr opts
    by_cases hr : (ctrl addr opts).isSome = true
    · have hidx : (ctrl :: rest).findIdx (fun c => (c addr opts).isSome) = 0 := by
        simp [List.findIdx_cons, hr]
      refine ⟨?_, ?_, ?_⟩
      · rw [hidx]
        simp [accessChainEval, hr]
      · intro h
        simp only [hidx]
        exact ⟨ctrl, by simp, by simp [accessChainEval, hr], hr⟩
      · intro hcon
        rw [hidx] at hcon
        simp at hcon
    · have hrf : (ctrl addr opts).isSome = false := by simpa using hr
      have hidx : (ctrl :: rest).findIdx (fun c => (c addr opts).isSome)
          = rest.findIdx (fun c => (c addr opts).isSome) + 1 := by
        simp [List.findIdx_cons, hrf]
      obtain ⟨ih1, ih2, ih3⟩ := ih addr opts
      refine ⟨?_, ?_, ?_⟩
      · rw [hidx]
        simp only [accessChainEval, hrf, Bool.false_eq_true, if_false, ih1,
          List.length_cons]
        rw [Nat.succ_min_succ]
      · intro h
        simp only [hidx] at h ⊢
        have hlt : rest.findIdx (fun c => (c addr opts).isSome) < rest.length := by
          simpa using h
        obtain ⟨f, hf1, hf2, hf3⟩ := ih2 hlt
        refine ⟨f, by simpa using hf1, ?_, hf3⟩
        simp [accessChainEval, hrf, hf2]
      · intro hcon
        rw [hidx] at hcon
        have hno : ¬ rest.findIdx (fun c => (c addr opts).isSome) < rest.length :=
          fun hlt => hcon (Nat.succ_lt_succ hlt)
        simp [accessChainEval, hrf, ih3 hno]

/-- C3: the chained controller invokes its sub-controllers in list order and
stops at the first one returning a non-UNDECIDED verdict — with `k` the
index of that controller, exactly `min (k + 1) length` sub-controllers are
invoked, so no controller after an earlier ALLOW or DENY is ever called;
the verdict is the first defined one, and if every sub-controller returns
UNDECIDED the configured default (itself possibly UNDECIDED) is returned. -/
theorem claim_C3_chain_stops_at_first_decision :
    ∀ (A O : Type) (c : ChainedAccessController A O) (addr : A) (opts : O),
      ((accessChainEval c.access_chain addr opts).2
        = min (c.access_chain.findIdx (fun ctrl => (ctrl addr opts).isSome) + 1)
            c.access_chain.length)
      ∧ (c.access_chain.findIdx (fun ctrl => (ctrl addr opts).isSome)
            < c.access_chain.length →
          ∃ f, c.access_chain[c.access_chain.findIdx
                (fun ctrl => (ctrl addr opts).isSome)]? = some f
            ∧ c.can addr opts = f addr opts)
      ∧ (¬ c.access_chain.findIdx (fun ctrl => (ctrl addr opts).isSome)
            < c.access_chain.length →
          c.can addr opts = c.default_ap) := by
  intro A O c addr opts
  obtain ⟨h1, h2, h3⟩ := accessChainEval_spec c.access_chain addr opts
  refine ⟨h1, ?_, ?_⟩
  · intro h
    obtain ⟨f, hf1, hf2, hf3⟩ := h2 h
    refine ⟨f, hf1, ?_⟩
    unfold ChainedAccessController.can
    rw [hf2]
    simp [hf3]
  · intro h
    unfold ChainedAccessController.can
    rw [h3 h]
    simp

/-- Witness for C3: a two-controller chain whose first controller denies —
the second is not invoked (count is 1), and the verdict is DENY, not the
ALLOW of the second controller or the default. -/
theorem claim_C3_chain_stops_at_first_decision_witness :
    ((accessChainEval
        [fun (_ : Unit) (_ : Unit) => (some false : OptAccessPolicy),
         fun _ _ => some true] () ()).2 = 1)
    ∧ (ChainedAccessController.can ⟨[fun (_ : Unit) (_ : Unit) => some false,
         fun _ _ => some true], some true⟩ () () = some false) := by
  have h := claim_C3_chain_stops_at_first_decision Unit Unit
    ⟨[fun _ _ => some false, fun _ _ => some true], some true⟩ () ()
  refine ⟨?_, ?_⟩
  · have h1 := h.1
    simpa [List.findIdx_cons] using h1
  · obtain ⟨f, hf1, hf2⟩ := h.2.1 (by simp [List.findIdx_cons])
    rw [hf2]
    have hf : f = fun (_ : Unit) (_ : Unit) => (some false : OptAccessPolicy) := by
      simp [List.findIdx_cons] at hf1
      exact hf1.symm
    rw [hf]

/-! RpcHandlerRegistry correlation counter (`src/registry.ts`). -/

/-- The allocation state of one `RpcHandlerRegistry` instance: its
`return_seq_id` field, an instance field initialized to 0 — not a global.
(The registry also owns its handler AddressMap; `nextSeqAddr` never touches
it, so it is not part of this state.) -/
structure RpcHandlerRegistry where
  return_seq_id : Nat
deriving DecidableEq, Repr

/-- The method `nextSeqAddr`:
`return ["_", "ret", "id" + this.return_seq_id++]` — the returned address
embeds the current counter value and the counter is post-incremented. -/
def RpcHandlerRegistry.nextSeqAddr (r : RpcHandlerRegistry) :
    List String × RpcHandlerRegistry :=
  (["_", "ret", "id" ++ Nat.repr r.return_seq_id],
   { return_seq_id := r.return_seq_id + 1 })

/-- The addresses produced by `n` successive `nextSeqAddr` calls on one
registry. -/
def seqAddrs : Nat → RpcHandlerRegistry → List (List String)
  | 0, _ => []
  | n + 1, r => r.nextSeqAddr.1 :: seqAddrs n r.nextSeqAddr.2

/-- Interleaved allocation on two independent registries: a `true` step
calls `nextSeqAddr` on the first registry, a `false` step on the second. -/
def seqAddrsTwo :
    List Bool → RpcHandlerRegistry → RpcHandlerRegistry →
    List (Bool × List String)
  | [], _, _ => []
  | true :: ops, r1, r2 =>
    (true, r1.nextSeqAddr.1) :: seqAddrsTwo ops r1.nextSeqAddr.2 r2
  | false :: ops, r1, r2 =>
    (false, r2.nextSeqAddr.1) :: seqAddrsTwo ops r1 r2.nextSeqAddr.2

/-- Big-endian character rendering of a natural number; describes the
output of the `Nat.toDigitsCore` loop underlying `Nat.repr`. -/
def natChars (n : Nat) : List Char :=
  if n = 0 then ['0'] else ((Nat.digits 10 n).map Nat.digitChar).reverse

theorem toDigitsCore_eq_natChars :
    ∀ (n fuel : Nat) (ds : List Char), n < fuel →
      Nat.toDigitsCore 10 fuel n ds = natChars n ++ ds := by
  intro n
  induction n using Nat.strong_induction_on with
  | _ n ih =>
    intro fuel ds hlt
    match fuel, hlt with
    | fuel + 1, _ =>
      by_cases h10 : n / 10 = 0
      · have hn10 : n < 10 := by omega
        by_cases h0 : n = 0
        · subst h0
          simp [Nat.toDigitsCore, natChars]
          decide
        · have hmod : n % 10 = n := Nat.mod_eq_of_lt hn10
          have hdig : Nat.digits 10 n = [n] := by
            rw [Nat.digits_def' (by norm_num) (Nat.pos_of_ne_zero h0), hmod, h10]
            simp
          simp [Nat.toDigitsCore, h10, natChars, h0, hdig, hmod]
      · have h0 : n ≠ 0 := by
          intro hc
          subst hc
          simp at h10
        have hdivlt : n / 10 < fuel := by
          have hx : n / 10 < n := Nat.div_lt_self (Nat.pos_of_ne_zero h0) (by norm_num)
          omega
        have hrec := ih (n / 10) (Nat.div_lt_self (Nat.pos_of_ne_zero h0) (by norm_num))
          fuel (Nat.digitChar (n % 10) :: ds) hdivlt
        have hdig : Nat.digits 10 n = n % 10 :: Nat.digits 10 (n / 10) :=
          Nat.digits_def' (by norm_num) (Nat.pos_of_ne_zero h0)
        simp only [Nat.toDigitsCore, h10, if_false]
        rw [hrec]
        simp [natChars, h0, h10, hdig, List.reverse_cons, List.append_assoc]

theorem digitChar_inj_lt10 :
    ∀ a : Nat, a < 10 → ∀ b : Nat, b < 10 →
      Nat.digitChar a = Nat.digitChar b → a = b := by
  decide

theorem map_digitChar_inj :
    ∀ (l1 l2 : List Nat), (∀ x ∈ l1, x < 10) → (∀ x ∈ l2, x < 10) →
      l1.map Nat.digitChar = l2.map Nat.digitChar → l1 = l2 := by
  intro l1
  induction l1 with
  | nil =>
    intro l2 _ _ h
    cases l2 with
    | nil => rfl
    | cons b bs => simp at h
  | cons a as ih =>
    intro l2 h1 h2 h
    cases l2 with
    | nil => simp at h
    | cons b bs =>
      simp only [List.map_cons, List.cons.injEq] at h
      have ha : a = b := digitChar_inj_lt10 a (h1 a (by simp)) b (h2 b (by simp)) h.1
      have htl : as = bs := ih bs (fun x hx => h1 x (by simp [hx]))
        (fun x hx => h2 x (by simp [hx])) h.2
      rw [ha, htl]

theorem natChars_inj : ∀ a b : Nat, natChars a = natChars b → a = b := by
  have key : ∀ b : Nat, b ≠ 0 →
      ¬ (['0'] = ((Nat.digits 10 b).map Nat.digitChar).reverse) := by
    intro b hb hc
    have hmap : (Nat.digits 10 b).map Nat.digitChar = ['0'] := by
      have := congrArg List.reverse hc
      simpa using this.symm
    cases hd : Nat.digits 10 b with
    | nil => rw [hd] at hmap; simp at hmap
    | cons x xs =>
      rw [hd] at hmap
      simp only [List.map_cons, List.cons.injEq] at hmap
      have hxs : xs = [] := by
        have := hmap.2
        simpa using this
      have hx10 : x < 10 := Nat.digits_lt_base (by norm_num) (by rw [hd]; simp)
      have hx0 : x = 0 := digitChar_inj_lt10 x hx10 0 (by norm_num)
        (by rw [hmap.1]; rfl)
      have : b = 0 := by
        have hofd := Nat.ofDigits_digits 10 b
        rw [hd, hxs, hx0] at hofd
        simpa using hofd.symm
      exact hb this
  intro a b h
  by_cases ha : a = 0
  · by_cases hb : b = 0
    · rw [ha, hb]
    · subst ha
      rw [natChars] at h
      simp only [if_pos rfl] at h
      rw [natChars, if_neg hb] at h
      exact absurd h (key b hb)
  · by_cases hb : b = 0
    · subst hb
      rw [natChars, if_neg ha] at h
      rw [natChars] at h
      simp only [if_pos rfl] at h
      exact absurd h.symm (key a ha)
    · rw [natChars, if_neg ha, natChars, if_neg hb] at h
      have hmap := List.reverse_injective h
      have hdig := map_digitChar_inj (Nat.digits 10 a) (Nat.digits 10 b)
        (fun x hx => Nat.digits_lt_base (by norm_num) hx)
        (fun x hx => Nat.digits_lt_base (by norm_num) hx) hmap
      exact Nat.digits_inj_iff.mp hdig

theorem natRepr_injective : Function.Injective Nat.repr := by
  intro a b h
  have hdata : Nat.toDigits 10 a = Nat.toDigits 10 b := by
    have hd := congrArg String.data h
    simpa [Nat.repr, List.asString] using hd
  have ha := toDigitsCore_eq_natChars a (a + 1) [] (Nat.lt_succ_self a)
  have hb := toDigitsCore_eq_natChars b (b + 1) [] (Nat.lt_succ_self b)
  apply natChars_inj
  have hx : natChars a ++ ([] : List Char) = natChars b ++ [] := by
    rw [← ha, ← hb]
    exact hdata
  simpa using hx

theorem seqAddrs_eq (n : Nat) :
    ∀ start : Nat,
      seqAddrs n { return_seq_id := start }
        = (List.range n).map
            (fun i => ["_", "ret", "id" ++ Nat.repr (start + i)]) := by
  induction n with
  | zero => intro start; rfl
  | succ n ih =>
    intro start
    rw [List.range_succ_eq_map]
    simp only [seqAddrs, RpcHandlerRegistry.nextSeqAddr, List.map_cons,
      List.map_map, Nat.add_zero]
    rw [ih (start + 1)]
    congr 1
    apply List.map_congr_left
    intro i _
    simp only [Function.comp]
    have : start + 1 + i = start + (i + 1) := by omega
    rw [this]

/-- C8: starting from a fresh registry (counter 0), N successive
`nextSeqAddr` calls return exactly the correlation addresses
`["_", "ret", "id0"]` through `["_", "ret", "id(N-1)"]`, in order, with no
gaps or repeats (the list is duplicate-free); and the counter is scoped per
registry instance: interleaving calls on two registries gives each one its
own independent sequence. -/
theorem claim_C8_correlation_addresses :
    (∀ n : Nat,
      seqAddrs n { return_seq_id := 0 }
        = (List.range n).map (fun i => ["_", "ret", "id" ++ Nat.repr i]))
    ∧ (∀ n : Nat, (seqAddrs n { return_seq_id := 0 }).Nodup)
    ∧ (∀ (ops : List Bool) (r1 r2 : RpcHandlerRegistry),
        ((seqAddrsTwo ops r1 r2).filterMap
            (fun p => if p.1 = true then some p.2 else none)
          = seqAddrs (ops.count true) r1)
        ∧ ((seqAddrsTwo ops r1 r2).filterMap
            (fun p => if p.1 = false then some p.2 else none)
          = seqAddrs (ops.count false) r2)) := by
  have haddr_inj : Function.Injective
      (fun i : Nat => ["_", "ret", "id" ++ Nat.repr i]) := by
    intro i j hij
    have hs : "id" ++ Nat.repr i = "id" ++ Nat.repr j := by
      have hg := congrArg (fun l : List String => l.getD 2 "") hij
      simpa using hg
    have hd := congrArg String.data hs
    simp only [String.data_append] at hd
    have hrepr : (Nat.repr i).data = (Nat.repr j).data :=
      List.append_cancel_left hd
    exact natRepr_injective (String.ext hrepr)
  refine ⟨fun n => by simpa using seqAddrs_eq n 0, ?_, ?_⟩
  · intro n
    have he := seqAddrs_eq n 0
    simp only [Nat.zero_add] at he
    rw [show seqAddrs n { return_seq_id := 0 }
        = (List.range n).map (fun i => ["_", "ret", "id" ++ Nat.repr i]) from by
      simpa using he]
    exact (List.nodup_range n).map haddr_inj
  · intro ops
    induction ops with
    | nil => intro r1 r2; exact ⟨rfl, rfl⟩
    | cons b ops ih =>
      intro r1 r2
      cases b
      · obtain ⟨ih1, ih2⟩ := ih r1 r2.nextSeqAddr.2
        constructor
        · simp only [seqAddrsTwo, List.filterMap_cons]
          simp [ih1]
        · simp only [seqAddrsTwo, List.filterMap_cons]
          simp [ih2, seqAddrs, List.count_cons]
      · obtain ⟨ih1, ih2⟩ := ih r1.nextSeqAddr.2 r2
        constructor
        · simp only [seqAddrsTwo, List.filterMap_cons]
          simp [ih1, seqAddrs, List.count_cons]
        · simp only [seqAddrsTwo, List.filterMap_cons]
          simp [ih2]

/-! RpcChannel message dispatch (`src/registry.ts`). -/

/-- The channel liveness state machine values (`enum RpcState`). -/
inductive RpcState where
  | INACTIVE
  | ACTIVE
  | CLOSED
deriving DecidableEq, Repr

/-- The reply protocol selected by `return_type` (optional on the wire;
anything other than the literal `generator` falls to the `promise` default
branch of the `switch`). -/
inductive ReturnType where
  | promise
  | generator
deriving DecidableEq, Repr

/-- The wire message (`interface RpcMessage`). -/
structure RpcMessage where
  toAddr : List String
  args : List SerializedData
  return_addr : Option (List String)
  return_type : Option ReturnType

/-- The opts object `receive` passes to the access controllers:
`{ args: val.args, wc, channel: this, func }`.  The channel self-reference
carries no extra information in this model and is omitted. -/
structure CanCallOpts (H : Type) where
  args : List SerializedData
  wc : List String
  func : Option H

/-- The dispatch-relevant state of an RpcChannel: liveness state, the
internal registry map (`_i_reg.map`), the application registry map
(`reg.map`), the optional per-channel `access_controller`, the internal
registry access chain (`_i_reg` is a ChainedAccessController constructed
with undefined default), and the constructor argument `default_policy`
(a plain boolean `AccessPolicy`, `ALLOW` by default). -/
structure RpcChannelModel (H : Type) where
  st : RpcState
  i_reg_map : AddressMap H
  reg_map : AddressMap H
  access_controller : Option (List String → CanCallOpts H → OptAccessPolicy)
  i_reg_chain : List (List String → CanCallOpts H → OptAccessPolicy)
  default_policy : Bool

/-- The contribution of the per-channel controller to `RpcChannel.can`:
`this.access_controller && this.access_controller.can(addr, opts)` —
undefined when no controller is set. -/
def chanAcCan {H : Type} (ch : RpcChannelModel H) (addr : List String)
    (opts : CanCallOpts H) : OptAccessPolicy :=
  match ch.access_controller with
  | some ctrl => ctrl addr opts
  | none => none

/-- The method `RpcChannel.can`: the per-channel controller first, then the
internal registry chain, then the configured `default_policy`; each later
stage is consulted only when every earlier stage returned an undefined
verdict (the two `if (isDefined(val)) return val` early returns). -/
def RpcChannel.can {H : Type} (ch : RpcChannelModel H) (addr : List String)
    (opts : CanCallOpts H) : OptAccessPolicy :=
  if (chanAcCan ch addr opts).isSome then chanAcCan ch addr opts
  else if (ChainedAccessController.can ⟨ch.i_reg_chain, none⟩ addr opts).isSome then
    ChainedAccessController.can ⟨ch.i_reg_chain, none⟩ addr opts
  else some ch.default_policy

/-- The handler lookup of `receive`:
`this._i_reg.map.get(val.to, wc) || this.reg.map.get(val.to, wc)` — the
application registry is consulted only when the internal lookup produced
nothing (handlers are functions and functions are truthy), and both lookups
share the same `wc` array and the same (possibly mutated) `val.to` array.
The result is the handler, the final contents of `wc`, and the final state
of `val.to`. -/
def RpcChannel.funcLookup {H : Type} (ch : RpcChannelModel H)
    (toAddr : List String) : Option H × List String × List String :=
  if (ch.i_reg_map.get (fun _ => true) toAddr (some [])).1.isSome then
    ((ch.i_reg_map.get (fun _ => true) toAddr (some [])).1,
     (ch.i_reg_map.get (fun _ => true) toAddr (some [])).2.2.getD [],
     (ch.i_reg_map.get (fun _ => true) toAddr (some [])).2.1)
  else
    ((ch.reg_map.get (fun _ => true)
        (ch.i_reg_map.get (fun _ => true) toAddr (some [])).2.1
        (ch.i_reg_map.get (fun _ => true) toAddr (some [])).2.2).1,
     (ch.reg_map.get (fun _ => true)
        (ch.i_reg_map.get (fun _ => true) toAddr (some [])).2.1
        (ch.i_reg_map.get (fun _ => true) toAddr (some [])).2.2).2.2.getD [],
     (ch.reg_map.get (fun _ => true)
        (ch.i_reg_map.get (fun _ => true) toAddr (some [])).2.1
        (ch.i_reg_map.get (fun _ => true) toAddr (some [])).2.2).2.1)

/-- An error response frame produced by `maybeReturn` for an error: the
promise protocol sends `[undefined, error]` to the return address, the
generator protocol sends `[undefined, error, true]` (the `gen_done` flag
records the terminal `true`). -/
structure ErrorResponse where
  toAddr : List String
  errName : String
  errMessage : String
  gen_done : Bool
deriving DecidableEq, Repr

/-- The error response for a message: built only when `return_addr` is
present, with the generator terminal flag exactly when `return_type` is the
literal `generator`. -/
def mkErrorResponse (addr : List String) (name msg : String)
    (rt : Option ReturnType) : ErrorResponse :=
  { toAddr := addr, errName := name, errMessage := msg,
    gen_done := decide (rt = some ReturnType.generator) }

/-- The observable outcome of one `receive` call. -/
inductive RecvOutcome (H : Type) where
  | closedNoop
  | denied (response : Option ErrorResponse)
  | undefinedFunc (response : Option ErrorResponse)
  | invoke (func : H) (wc : List String)
deriving DecidableEq

/-- The method `RpcChannel.receive`: a no-op when the channel is CLOSED;
otherwise the handler is looked up (internal registry first), the composed
access decision is evaluated (with the looked-up handler and wildcard
captures in the opts) and an access-denied verdict is acted on BEFORE the
missing-handler check: `if (isDefined(security_policy) && security_policy
=== AccessPolicy.DENY)` responds with an `AccessDeniedError` and returns;
only then does `if (!func)` respond with
`new TypeError("Function at address is undefined")`; otherwise the handler
is invoked with the wildcard captures. -/
def RpcChannel.receive {H : Type} (ch : RpcChannelModel H)
    (msg : RpcMessage) : RecvOutcome H :=
  if ch.st = RpcState.CLOSED then RecvOutcome.closedNoop
  else if RpcChannel.can ch (RpcChannel.funcLookup ch msg.toAddr).2.2
      ⟨msg.args, (RpcChannel.funcLookup ch msg.toAddr).2.1, (RpcChannel.funcLookup ch msg.toAddr).1⟩
      = some false then
    RecvOutcome.denied (msg.return_addr.map fun a =>
      mkErrorResponse a "AccessDeniedError" "Access denied" msg.return_type)
  else
    match (RpcChannel.funcLookup ch msg.toAddr).1 with
    | none => RecvOutcome.undefinedFunc (msg.return_addr.map fun a =>
        mkErrorResponse a "TypeError" "Function at address is undefined"
          msg.return_type)
    | some f => RecvOutcome.invoke f (RpcChannel.funcLookup ch msg.toAddr).2.1

/-- The dispatch state of a channel immediately after construction and
start: the constructor registers the reserved close handler at
`["_", "close"]` on the internal registry, installs a
ChainedAccessController with an empty chain and undefined default as
`access_controller`, and the default policy is ALLOW. -/
def freshChannel (closeHandler : String) : RpcChannelModel String :=
  { st := RpcState.ACTIVE,
    i_reg_map := AddressMap.empty.put [some "_", some "close"] (some closeHandler),
    reg_map := AddressMap.empty,
    access_controller := some (ChainedAccessController.can ⟨[], none⟩),
    i_reg_chain := [],
    default_policy := true }

/-- C2: receive evaluates the composed access decision before considering
whether a handler exists.  When the decision is DENY the outcome is the
access-denied error response (sent only when return_addr is present), never
a missing-handler error; only when the decision is not DENY and no handler
is registered is the error carrying the message "Function at address is
undefined" sent back.  The closed conjunct is the end-to-end case: a call
to the unregistered address ["net", "x", "missing"] on a fresh channel
produces exactly that error at the correlation address. -/
theorem claim_C2_access_denied_before_missing_handler :
    (∀ (H : Type) (ch : RpcChannelModel H) (msg : RpcMessage),
       ch.st ≠ RpcState.CLOSED →
       RpcChannel.can ch (RpcChannel.funcLookup ch msg.toAddr).2.2
           ⟨msg.args, (RpcChannel.funcLookup ch msg.toAddr).2.1, (RpcChannel.funcLookup ch msg.toAddr).1⟩
         = some false →
       RpcChannel.receive ch msg
         = RecvOutcome.denied (msg.return_addr.map fun a =>
             mkErrorResponse a "AccessDeniedError" "Access denied"
               msg.return_type))
    ∧ (∀ (H : Type) (ch : RpcChannelModel H) (msg : RpcMessage),
       ch.st ≠ RpcState.CLOSED →
       RpcChannel.can ch (RpcChannel.funcLookup ch msg.toAddr).2.2
           ⟨msg.args, (RpcChannel.funcLookup ch msg.toAddr).2.1, (RpcChannel.funcLookup ch msg.toAddr).1⟩
         ≠ some false →
       (RpcChannel.funcLookup ch msg.toAddr).1 = none →
       RpcChannel.receive ch msg
         = RecvOutcome.undefinedFunc (msg.return_addr.map fun a =>
             mkErrorResponse a "TypeError" "Function at address is undefined"
               msg.return_type))
    ∧ RpcChannel.receive (freshChannel "close")
        { toAddr := ["net", "x", "missing"], args := [],
          return_addr := some ["_", "ret", "id0"],
          return_type := some ReturnType.promise }
        = RecvOutcome.undefinedFunc (some
            { toAddr := ["_", "ret", "id0"], errName := "TypeError",
              errMessage := "Function at address is undefined",
              gen_done := false }) := by
  refine ⟨?_, ?_, by decide⟩
  · intro H ch msg hst hden
    unfold RpcChannel.receive
    rw [if_neg hst, if_pos hden]
  · intro H ch msg hst hden hfunc
    unfold RpcChannel.receive
    rw [if_neg hst, if_neg hden, hfunc]

/-- Witness for C2: a channel whose per-channel controller denies
everything turns a message to a registered address into the access-denied
response, not a missing-handler response. -/
theorem claim_C2_access_denied_before_missing_handler_witness :
    RpcChannel.receive
        ({ st := RpcState.ACTIVE,
           i_reg_map := AddressMap.empty,
           reg_map := AddressMap.empty.put [some "f"] (some "h"),
           access_controller := some (fun _ _ => some false),
           i_reg_chain := [],
           default_policy := true } : RpcChannelModel String)
        { toAddr := ["f"], args := [], return_addr := some ["_", "ret", "id0"],
          return_type := none }
      = RecvOutcome.denied (some
          { toAddr := ["_", "ret", "id0"], errName := "AccessDeniedError",
            errMessage := "Access denied", gen_done := false }) :=
  claim_C2_access_denied_before_missing_handler.1 String
    { st := RpcState.ACTIVE,
      i_reg_map := AddressMap.empty,
      reg_map := AddressMap.empty.put [some "f"] (some "h"),
      access_controller := some (fun _ _ => some false),
      i_reg_chain := [],
      default_policy := true }
    { toAddr := ["f"], args := [], return_addr := some ["_", "ret", "id0"],
      return_type := none }
    (by decide) (by decide)

/-- C7: the wildcard capture sink receives exactly the segments consumed
via the wildcard branch, in traversal order, appended after the previous
sink contents — a get run with sink `ws` ends with `ws ++ delta` where
`delta` is the capture list an empty-sink run produces, independent of
`ws`.  The closed conjunct is the end-to-end case: a handler registered at
the pattern ["net", "x", wildcard] receiving a message to
["net", "x", "hello"] is invoked with wildcard capture ["hello"]. -/
theorem claim_C7_wildcard_capture :
    (∀ (T : Type) (truthy : T → Bool) (m : AddressMap T) (addr : List String)
       (ws : List String),
       (m.get truthy addr (some ws)).2.2
         = some (ws ++ ((m.get truthy addr (some [])).2.2.getD [])))
    ∧ RpcChannel.receive
        ({ st := RpcState.ACTIVE,
           i_reg_map := AddressMap.empty.put [some "_", some "close"]
             (some "close"),
           reg_map := AddressMap.empty.put [some "net", some "x", none]
             (some "h"),
           access_controller := some (ChainedAccessController.can ⟨[], none⟩),
           i_reg_chain := [],
           default_policy := true } : RpcChannelModel String)
        { toAddr := ["net", "x", "hello"], args := [], return_addr := none,
          return_type := none }
      = RecvOutcome.invoke "h" ["hello"] := by
  refine ⟨?_, by decide⟩
  intro T truthy m addr ws
  obtain ⟨_, _, _, h3⟩ := getFlat_sink_append truthy m addr.length [] addr ws
  simpa [AddressMap.get] using h3

/-! RpcChannel lifecycle (`src/registry.ts`: `start`, `close`, timers). -/

/-- Modelled from the spec: `AddressMap.clear` (called through
`RpcHandlerRegistry.clear` by `close()`) is not among the provided sources;
the spec states that closing clears all registered handlers on the internal
registry, so `clear` resets the table to the empty one. -/
def AddressMap.clear {T : Type} (_ : AddressMap T) : AddressMap T :=
  AddressMap.empty

/-- The lifecycle-relevant state of an RpcChannel: the `_state` field, the
internal registry handler map (cleared by close), the log of reserved
messages sent, the two active timer handles, and whether a timeout is
configured in the options. -/
structure RpcChannelLife (H : Type) where
  st : RpcState
  i_reg_map : AddressMap H
  sent : List (List String)
  active_timeout : Bool
  active_keepalive : Bool
  timeout_cfg : Bool

/-- The lifecycle operations: the state transition completing `start()`,
`close(send)`, the inactivity-timeout expiry, and the dispatch of an
incoming message (which closes the channel without a notice when it is the
reserved close notice and the internal close handler is still registered). -/
inductive ChannelOp where
  | startFinish
  | closeOp (send : Bool)
  | timerExpire
  | receiveMsg (toAddr : List String)

/-- The method `close(send = true)`: a no-op when already CLOSED; otherwise
it optionally sends the reserved `["_", "close"]` notice, transitions to
CLOSED, clears the internal registry handlers and cancels both timers. -/
def closeStep {H : Type} (send : Bool) (s : RpcChannelLife H) :
    RpcChannelLife H :=
  if s.st = RpcState.CLOSED then s
  else
    { st := RpcState.CLOSED,
      i_reg_map := s.i_reg_map.clear,
      sent := s.sent ++ (if send then [["_", "close"]] else []),
      active_timeout := false,
      active_keepalive := false,
      timeout_cfg := s.timeout_cfg }

/-- One lifecycle step.  `startFinish` is the guarded transition of
`start()` (both `if (this._state !== RpcState.INACTIVE) return` checks:
the transition to ACTIVE happens only from INACTIVE), followed by
`resetTimeout`.  `timerExpire` is the `setTimeout` callback, which calls
`close()`; it only ever runs while the timer handle is active.
`receiveMsg` first returns when CLOSED, resets the inactivity timer on the
`rawmessage` event, and dispatches the reserved close notice to the
internal close handler when that handler is registered, which calls
`close(false)`. -/
def lifeStep {H : Type} : ChannelOp → RpcChannelLife H → RpcChannelLife H
  | ChannelOp.startFinish, s =>
    if s.st ≠ RpcState.INACTIVE then s
    else { s with st := RpcState.ACTIVE, active_timeout := s.timeout_cfg }
  | ChannelOp.closeOp send, s => closeStep send s
  | ChannelOp.timerExpire, s =>
    if s.active_timeout then closeStep true s else s
  | ChannelOp.receiveMsg toAddr, s =>
    if s.st = RpcState.CLOSED then s
    else if decide (toAddr = ["_", "close"])
        && (s.i_reg_map.get (fun _ => true) ["_", "close"] (some [])).1.isSome then
      closeStep false
        { s with active_timeout := decide (s.st = RpcState.ACTIVE) && s.timeout_cfg }
    else { s with active_timeout := decide (s.st = RpcState.ACTIVE) && s.timeout_cfg }

/-- The numeric order of the state machine: INACTIVE before ACTIVE before
CLOSED. -/
def RpcState.rank : RpcState → Nat
  | RpcState.INACTIVE => 0
  | RpcState.ACTIVE => 1
  | RpcState.CLOSED => 2

/-- Running a sequence of lifecycle operations. -/
def runOps {H : Type} (s : RpcChannelLife H) (ops : List ChannelOp) :
    RpcChannelLife H :=
  ops.foldl (fun t op => lifeStep op t) s

theorem closeStep_closed {H : Type} (send : Bool) (s : RpcChannelLife H)
    (h : s.st = RpcState.CLOSED) : closeStep send s = s := by
  simp [closeStep, h]

theorem lifeStep_closed {H : Type} (op : ChannelOp) (s : RpcChannelLife H)
    (h : s.st = RpcState.CLOSED) : lifeStep op s = s := by
  cases op with
  | startFinish =>
    rw [lifeStep]
    rw [if_pos]
    rw [h]
    intro hc
    cases hc
  | closeOp send => exact closeStep_closed send s h
  | timerExpire =>
    rw [lifeStep]
    by_cases ht : s.active_timeout = true
    · rw [if_pos ht]
      exact closeStep_closed true s h
    · rw [if_neg ht]
  | receiveMsg toAddr =>
    rw [lifeStep]
    rw [if_pos h]

theorem lifeStep_rank_mono {H : Type} (op : ChannelOp) (s : RpcChannelLife H) :
    s.st.rank ≤ (lifeStep op s).st.rank := by
  by_cases h : s.st = RpcState.CLOSED
  · rw [lifeStep_closed op s h]
  · cases op with
    | startFinish =>
      rw [lifeStep]
      by_cases hi : s.st = RpcState.INACTIVE
      · rw [if_neg (by simpa using hi)]
        rw [hi]
        cases s.st <;> simp [RpcState.rank]
      · rw [if_pos (by simpa using hi)]
    | closeOp send =>
      rw [lifeStep, closeStep, if_neg h]
      cases s.st <;> simp [RpcState.rank]
    | timerExpire =>
      rw [lifeStep]
      by_cases ht : s.active_timeout = true
      · rw [if_pos ht, closeStep, if_neg h]
        cases s.st <;> simp [RpcState.rank]
      · rw [if_neg ht]
    | receiveMsg toAddr =>
      rw [lifeStep, if_neg h]
      by_cases hc : (decide (toAddr = ["_", "close"])
          && (s.i_reg_map.get (fun _ => true) ["_", "close"] (some [])).1.isSome)
            = true
      · rw [if_pos hc, closeStep]
        split
        next h2 => exact absurd h2 h
        next h2 => cases s.st <;> simp [RpcState.rank]
      · rw [if_neg (by simpa using hc)]

/-- C4: the channel state is monotone along INACTIVE, ACTIVE, CLOSED.  For
every single operation and every operation sequence (start completion,
close, receive, timer expiry) the state rank never decreases, a CLOSED
channel is left entirely unchanged by every operation (so it stays CLOSED),
no operation ever produces INACTIVE from a non-INACTIVE state, and a second
close after a first close has no observable effect whatsoever: no state
change, no message sent, no handler clearing, no timer change. -/
theorem claim_C4_state_monotone_close_idempotent :
    (∀ (H : Type) (op : ChannelOp) (s : RpcChannelLife H),
       s.st.rank ≤ (lifeStep op s).st.rank)
    ∧ (∀ (H : Type) (op : ChannelOp) (s : RpcChannelLife H),
       s.st = RpcState.CLOSED → lifeStep op s = s)
    ∧ (∀ (H : Type) (op : ChannelOp) (s : RpcChannelLife H),
       (lifeStep op s).st = RpcState.INACTIVE → s.st = RpcState.INACTIVE)
    ∧ (∀ (H : Type) (s : RpcChannelLife H) (b1 b2 : Bool),
       lifeStep (ChannelOp.closeOp b2) (lifeStep (ChannelOp.closeOp b1) s)
         = lifeStep (ChannelOp.closeOp b1) s)
    ∧ (∀ (H : Type) (s : RpcChannelLife H) (ops : List ChannelOp),
       s.st.rank ≤ (runOps s ops).st.rank)
    ∧ (∀ (H : Type) (s : RpcChannelLife H) (ops : List ChannelOp),
       s.st = RpcState.CLOSED → runOps s ops = s) := by
  have hseq : ∀ (H : Type) (ops : List ChannelOp) (s : RpcChannelLife H),
      s.st.rank ≤ (runOps s ops).st.rank := by
    intro H ops
    induction ops with
    | nil => intro s; exact le_refl _
    | cons op ops ih =>
      intro s
      exact le_trans (lifeStep_rank_mono op s)
        (by simpa [runOps, List.foldl_cons] using ih (lifeStep op s))
  have hclosedseq : ∀ (H : Type) (ops : List ChannelOp) (s : RpcChannelLife H),
      s.st = RpcState.CLOSED → runOps s ops = s := by
    intro H ops
    induction ops with
    | nil => intro s _; rfl
    | cons op ops ih =>
      intro s h
      have h1 := lifeStep_closed op s h
      show runOps (lifeStep op s) ops = s
      rw [h1]
      exact ih s h
  refine ⟨fun H op s => lifeStep_rank_mono op s,
    fun H op s h => lifeStep_closed op s h, ?_, ?_,
    fun H s ops => hseq H ops s, fun H s ops h => hclosedseq H ops s h⟩
  · intro H op s h
    have hmono := lifeStep_rank_mono op s
    rw [h] at hmono
    simp only [RpcState.rank] at hmono
    cases hs : s.st
    · rfl
    · rw [hs] at hmono; simp [RpcState.rank] at hmono
    · rw [hs] at hmono; simp [RpcState.rank] at hmono
  · intro H s b1 b2
    apply lifeStep_closed
    show (closeStep b1 s).st = RpcState.CLOSED
    rw [closeStep]
    by_cases h : s.st = RpcState.CLOSED
    · rw [if_pos h]; exact h
    · rw [if_neg h]

/-- Witness for C4: a CLOSED channel is untouched by a close operation and
by a receive, and closing twice from ACTIVE equals closing once. -/
theorem claim_C4_state_monotone_close_idempotent_witness :
    (lifeStep (ChannelOp.closeOp true)
        ({ st := RpcState.CLOSED, i_reg_map := AddressMap.empty, sent := [],
           active_timeout := false, active_keepalive := false,
           timeout_cfg := false } : RpcChannelLife Nat)
      = { st := RpcState.CLOSED, i_reg_map := AddressMap.empty, sent := [],
          active_timeout := false, active_keepalive := false,
          timeout_cfg := false })
    ∧ (lifeStep (ChannelOp.closeOp false)
        (lifeStep (ChannelOp.closeOp true)
          ({ st := RpcState.ACTIVE, i_reg_map := AddressMap.empty, sent := [],
             active_timeout := true, active_keepalive := true,
             timeout_cfg := true } : RpcChannelLife Nat))
      = lifeStep (ChannelOp.closeOp true)
          ({ st := RpcState.ACTIVE, i_reg_map := AddressMap.empty, sent := [],
             active_timeout := true, active_keepalive := true,
             timeout_cfg := true } : RpcChannelLife Nat)) :=
  ⟨claim_C4_state_monotone_close_idempotent.2.1 Nat (ChannelOp.closeOp true)
      { st := RpcState.CLOSED, i_reg_map := AddressMap.empty, sent := [],
        active_timeout := false, active_keepalive := false,
        timeout_cfg := false } rfl,
   claim_C4_state_monotone_close_idempotent.2.2.2.1 Nat
      { st := RpcState.ACTIVE, i_reg_map := AddressMap.empty, sent := [],
        active_timeout := true, active_keepalive := true,
        timeout_cfg := true } true false⟩

end Rpcchannel
